import Mathlib

/-!
Verification of the bulk-upsert statement-building engine
(`gorm-bulk-upsert`, file `bulk_upsert.go`) against its design
specification.  The Go code is shallowly embedded: record values become an
inductive `GoValue`, gorm's per-field metadata becomes the `Field`
structure (the metadata provider is an external collaborator per the
spec), the Go `map[string]interface{}` attribute map becomes an
association list with Go-map update semantics, and the built SQL statement
becomes the `Statement` structure carrying the same information as the
generated text (table, ordered columns, per-record placeholder counts,
conflict-clause columns, ordered bound values).  Database execution is a
parameter `exec : Statement → Option String` mirroring `db.Exec(...).Error`.
-/

namespace GormBulk

/-- A runtime value bound into a statement: a wall-clock time produced by
`time.Now()`, a string literal (default-value tags), or any other
caller-supplied Go value, represented opaquely by a number. -/
inductive Value where
  | time (t : Nat)
  | str (s : String)
  | raw (n : Nat)
deriving DecidableEq, Repr

/-- One field descriptor as gorm's metadata provider exposes it
(`field` in `scope.Fields()`): the logical struct-field name
(`field.Struct.Name`), the database column name (`field.DBName`), the tag
flags consulted by the code, the `DEFAULT` tag payload
(`field.TagSettingsGet("DEFAULT")`), and the current field value
(`field.Field.Interface()`). -/
structure Field where
  structName : String
  dbName : String
  hasForeignKey : Bool
  isUnique : Bool
  hasUniqueIndex : Bool
  hasRelationship : Bool
  isIgnored : Bool
  isPrimaryKey : Bool
  hasDefaultValue : Bool
  isBlank : Bool
  defaultTag : Option String
  value : Value
deriving DecidableEq, Repr

/-- A caller-supplied record as seen through reflection: a struct (with its
resolved table name and field descriptors), a Go map, or a primitive —
only the struct kind is accepted by `extractMapValue`. -/
inductive GoValue where
  | struct (tableName : String) (fields : List Field)
  | mapValue (pairs : List (String × Value))
  | primitive (v : Value)
deriving DecidableEq, Repr

/-- The check `reflect.ValueOf(value).Kind() == reflect.Struct`. -/
def GoValue.isStruct : GoValue → Bool
  | .struct _ _ => true
  | _ => false

/-- The field descriptors `scope.Fields()` of a record (empty for
non-structs, which the code
never reaches). -/
def GoValue.fields : GoValue → List Field
  | .struct _ fs => fs
  | _ => []

/-- The resolved table name `mainScope.QuotedTableName()` of a record. -/
def GoValue.tableName : GoValue → String
  | .struct t _ => t
  | _ => ""

/-- Modelled from the spec: the repository helper `containString`
(its source file is not under `src/`); the spec says a field is skipped
when "its logical name is in the exclusion set", so this is plain list
membership. -/
def containString (ss : List String) (s : String) : Bool :=
  ss.any (fun t => t == s)

/-- Strict lexicographic order on character lists, comparing code
points (the order `sort.Strings` uses, since UTF-8 byte order agrees with
code-point order). -/
def charsLt : List Char → List Char → Bool
  | [], [] => false
  | [], _ :: _ => true
  | _ :: _, [] => false
  | c :: cs, d :: ds =>
    if c.toNat < d.toNat then true
    else if d.toNat < c.toNat then false
    else charsLt cs ds

/-- Strict lexicographic order on strings. -/
def strLt (a b : String) : Bool :=
  charsLt a.data b.data

/-- Insert a string into a lexicographically ascending list. -/
def insertSorted (s : String) : List String → List String
  | [] => [s]
  | t :: ts => if strLt t s then t :: insertSorted s ts else s :: t :: ts

/-- Ascending lexicographic insertion sort on strings. -/
def sortStrings : List String → List String
  | [] => []
  | s :: ss => insertSorted s (sortStrings ss)

/-- Go-map assignment `attrs[k] = v`: overwrite the binding when the key is
present, append a new binding otherwise (so the list length is the map
size). -/
def mapInsert (m : List (String × Value)) (k : String) (v : Value) :
    List (String × Value) :=
  if m.any (fun p => p.1 == k) then
    m.map (fun p => if p.1 == k then (k, v) else p)
  else m ++ [(k, v)]

/-- Go-map read `attrs[k]` (the code only reads keys that are present; a
missing key yields the zero value). -/
def lookupD : List (String × Value) → String → Value
  | [], _ => Value.raw 0
  | p :: ps, k => if p.1 == k then p.2 else lookupD ps k

/-- Modelled from the spec: the repository helper `sortedKeys` (its source
file is not under `src/`); the spec's Attribute Map is "an ordered-by-key
mapping from database column name to a bound value", so the helper
returns the map's keys in ascending lexicographic order. -/
def sortedKeys (m : List (String × Value)) : List String :=
  sortStrings (m.map Prod.fst)

/-- Model of the external gorm collaborator `gorm.ToColumnName`: converts
a name to snake_case.  On names already in snake_case — the database
column names the attribute map is keyed by — it is the identity. -/
def snakeAux : Bool → List Char → List Char
  | _, [] => []
  | first, c :: cs =>
    if c.isUpper then
      (if first then [c.toLower] else ['_', c.toLower]) ++ snakeAux false cs
    else c :: snakeAux false cs

/-- See `snakeAux`. -/
def toColumnName (s : String) : String :=
  String.mk (snakeAux true s.data)

/-- The candidacy filter of `extractMapValue` (lines 124–127): a field
contributes an attribute unless its logical name is excluded, it is part
of a relationship, it carries a foreign-key tag, or it is ignored. -/
def includedField (excl : List String) (f : Field) : Bool :=
  !(containString excl f.structName) && !f.hasRelationship &&
    !f.hasForeignKey && !f.isIgnored

/-- The value `extractMapValue` binds for one included field
(lines 128–139): timestamps are overridden with `time.Now()` (the `now`
parameter), blank fields with a declared default take the `DEFAULT` tag
literal when present, and everything else takes the current field
value. -/
def fieldValue (f : Field) (now : Nat) : Value :=
  if f.structName == "CreatedAt" || f.structName == "UpdatedAt" then
    Value.time now
  else if f.hasDefaultValue && f.isBlank then
    match f.defaultTag with
    | some val => Value.str val
    | none => f.value
  else f.value

/-- The field loop of `extractMapValue` (lines 120–141), accumulating the
attribute map. -/
def extractFields (excl : List String) (now : Nat) :
    List Field → List (String × Value) → List (String × Value)
  | [], attrs => attrs
  | f :: fs, attrs =>
    if includedField excl f then
      extractFields excl now fs (mapInsert attrs f.dbName (fieldValue f now))
    else
      extractFields excl now fs attrs

/-- The error of line 115. -/
def structKindErr : String :=
  "value must be kind of Struct"

/-- The error of line 78. -/
def inconsistentErr : String :=
  "attribute sizes are inconsistent"

/-- The function `extractMapValue` (lines 113–143): reject non-struct
records, else
build the attribute map.  `now` stands for the wall-clock time observed
by the `time.Now()` calls. -/
def extractMapValue (value : GoValue) (excludeColumns : List String)
    (now : Nat) : Except String (List (String × Value)) :=
  match value with
  | .struct _ fields => .ok (extractFields excludeColumns now fields [])
  | _ => .error structKindErr

/-- The conflict-clause filter of `upsertObjSet` (lines 53–65): a field
survives into `ON DUPLICATE KEY UPDATE` unless it is excluded, part of a
relationship, foreign-keyed, ignored, the primary key, unique, or
unique-indexed. -/
def conflictField (excl : List String) (f : Field) : Bool :=
  !(containString excl f.structName) && !f.hasRelationship &&
    !f.hasForeignKey && !f.isIgnored && !f.isPrimaryKey &&
    !f.isUnique && !f.hasUniqueIndex

/-- The statement a chunk produces: the same information as the generated
SQL text plus its bound variables — table name, ordered column list
(line 48–50), per-record placeholder counts (lines 84–91), the
conflict-clause columns (lines 52–68), and the flat record-major bound
value list (lines 85–94). -/
structure Statement where
  table : String
  columns : List String
  placeholders : List Nat
  duplicates : List String
  vars : List Value
deriving DecidableEq, Repr

/-- The record loop of `upsertObjSet` (lines 70–95): re-extract every
record, enforce the attribute-count consistency check against the first
record's count, and accumulate placeholder counts and bound values in
each record's sorted key order. -/
def buildRows (excl : List String) (now : Nat) (attrSize : Nat) :
    List GoValue → Except String (List Nat × List Value)
  | [] => .ok ([], [])
  | obj :: rest =>
    match extractMapValue obj excl now with
    | .error e => .error e
    | .ok objAttrs =>
      if objAttrs.length ≠ attrSize then .error inconsistentErr
      else
        let keys := sortedKeys objAttrs
        match buildRows excl now attrSize rest with
        | .error e => .error e
        | .ok (ps, vs) =>
          .ok (keys.length :: ps, keys.map (lookupD objAttrs) ++ vs)

/-- The statement-building part of `upsertObjSet` (lines 30–107): empty
chunks are a no-op; otherwise extract the first record, derive the
ordered column list from its sorted attribute keys, derive the conflict
clause from its field descriptors, then run the record loop. -/
def buildStatement (objects : List GoValue) (excludeColumns : List String)
    (now : Nat) : Except String (Option Statement) :=
  match objects with
  | [] => .ok none
  | first :: _ =>
    match extractMapValue first excludeColumns now with
    | .error e => .error e
    | .ok firstAttrs =>
      let attrSize := firstAttrs.length
      let dbColumns := (sortedKeys firstAttrs).map toColumnName
      let duplicates :=
        (first.fields.filter (conflictField excludeColumns)).map Field.dbName
      match buildRows excludeColumns now attrSize objects with
      | .error e => .error e
      | .ok (placeholders, vars) =>
        .ok (some
          { table := first.tableName
            columns := dbColumns
            placeholders := placeholders
            duplicates := duplicates
            vars := vars })

/-- The function `upsertObjSet` (lines 29–110): build the chunk's
statement and execute
it through the database collaborator `exec` (`db.Exec(...).Error`),
returning the executed statement or the first error. -/
def upsertObjSet (exec : Statement → Option String)
    (objects : List GoValue) (excludeColumns : List String) (now : Nat) :
    Except String (Option Statement) :=
  match buildStatement objects excludeColumns now with
  | .error e => .error e
  | .ok none => .ok none
  | .ok (some stmt) =>
    match exec stmt with
    | some err => .error err
    | none => .ok (some stmt)

/-- Recursion worker for `splitObjects`, structural on a fuel bound so
that it evaluates by kernel reduction; each step consumes at least one
element when `size` is positive, so a fuel of the input length
suffices. -/
def splitGo {α : Type} (size : Nat) : Nat → List α → List (List α)
  | _, [] => []
  | 0, _ :: _ => []
  | fuel + 1, x :: xs =>
    (x :: xs).take size :: splitGo size fuel ((x :: xs).drop size)

/-- Modelled from the spec: the repository helper `splitObjects` (its
source file is not under `src/`); §4.1 — partition the input into
consecutive groups of at most `size` elements, preserving order, the last
group possibly smaller; `size` is required to be positive. -/
def splitObjects {α : Type} (objects : List α) (size : Nat) :
    List (List α) :=
  if size == 0 then [] else splitGo size objects.length objects

/-- The chunk loop of `BulkUpsert` (lines 21–25), additionally collecting
the statements that were issued so the issuance behaviour is visible in
the result. -/
def runChunks (exec : Statement → Option String)
    (excludeColumns : List String) (now : Nat) :
    List (List GoValue) → Except String (List Statement)
  | [] => .ok []
  | c :: cs =>
    match upsertObjSet exec c excludeColumns now with
    | .error e => .error e
    | .ok none => runChunks exec excludeColumns now cs
    | .ok (some s) =>
      match runChunks exec excludeColumns now cs with
      | .error e => .error e
      | .ok stmts => .ok (s :: stmts)

/-- The entry point `BulkUpsert` (lines 19–27): split into chunks and
upsert each in
order, stopping at the first error; on success the issued statements are
returned in order. -/
def BulkUpsert (exec : Statement → Option String)
    (objects : List GoValue) (chunkSize : Nat)
    (excludeColumns : List String) (now : Nat) :
    Except String (List Statement) :=
  runChunks exec excludeColumns now (splitObjects objects chunkSize)

/-- The Go helper `strings.Join`. -/
def joinStr (sep : String) : List String → String
  | [] => ""
  | [s] => s
  | s :: rest => s ++ sep ++ joinStr sep rest

/-- One conflict-clause fragment (line 67). -/
def dupFragment (db : String) : String :=
  "`" ++ db ++ "`=VALUES(`" ++ db ++ "`)"

/-- One per-record placeholder group (line 90). -/
def placeholderGroup (n : Nat) : String :=
  "(" ++ joinStr (", ") (List.replicate n ("?")) ++ ")"

/-- The SQL text assembly of lines 97–107, rendered from the structured
statement. -/
def renderSQL (s : Statement) : String :=
  let base :=
    "INSERT INTO " ++ s.table ++ " (`" ++ joinStr ("`, `") s.columns ++
      "`) VALUES " ++ joinStr (", ") (s.placeholders.map placeholderGroup)
  if s.duplicates.isEmpty then base
  else
    base ++ " ON DUPLICATE KEY UPDATE " ++
      joinStr (", ") (s.duplicates.map dupFragment)

/-! ### Association-list map lemmas -/

theorem lookupD_cons (p : String × Value) (ps : List (String × Value))
    (k : String) :
    lookupD (p :: ps) k = if p.1 == k then p.2 else lookupD ps k := rfl

theorem lookupD_map_update_self (m : List (String × Value)) (k : String)
    (v : Value) (hany : (m.any fun p => p.1 == k) = true) :
    lookupD (m.map fun p => if p.1 == k then (k, v) else p) k = v := by
  induction m with
  | nil => simp at hany
  | cons p ps ih =>
    rw [List.map_cons]
    by_cases hp : (p.1 == k) = true
    · rw [if_pos hp, lookupD_cons]
      rw [if_pos (beq_self_eq_true k)]
    · have hp' : (p.1 == k) = false := Bool.eq_false_iff.mpr hp
      rw [if_neg hp, lookupD_cons, if_neg hp]
      apply ih
      simpa [hp'] using hany

theorem lookupD_map_update_ne (m : List (String × Value)) (k k' : String)
    (v : Value) (h : k' ≠ k) :
    lookupD (m.map fun p => if p.1 == k then (k, v) else p) k' =
      lookupD m k' := by
  induction m with
  | nil => rfl
  | cons p ps ih =>
    rw [List.map_cons, lookupD_cons, lookupD_cons]
    by_cases hp : (p.1 == k) = true
    · have hkk : (k == k') = false :=
        beq_eq_false_iff_ne.mpr fun hc => h hc.symm
      have hpn : (p.1 == k') = false := by
        rw [beq_iff_eq.mp hp]; exact hkk
      rw [if_pos hp]
      rw [if_neg (show ¬((k, v).1 == k') = true by simp [hkk])]
      rw [if_neg (show ¬(p.1 == k') = true by simp [hpn])]
      exact ih
    · rw [if_neg hp]
      by_cases hq : (p.1 == k') = true
      · rw [if_pos hq, if_pos hq]
      · simp only [Bool.eq_false_iff.mpr hq, Bool.false_eq_true, if_false]
        exact ih

theorem lookupD_append_singleton_ne (m : List (String × Value))
    (k k' : String) (v : Value) (h : k' ≠ k) :
    lookupD (m ++ [(k, v)]) k' = lookupD m k' := by
  induction m with
  | nil =>
    simp [lookupD, beq_eq_false_iff_ne.mpr fun hc => h hc.symm]
  | cons p ps ih =>
    rw [List.cons_append, lookupD_cons, lookupD_cons]
    by_cases hp : (p.1 == k') = true
    · rw [if_pos hp, if_pos hp]
    · simp only [Bool.eq_false_iff.mpr hp, Bool.false_eq_true, if_false]
      exact ih

theorem lookupD_append_singleton_self (m : List (String × Value))
    (k : String) (v : Value) (hall : ∀ p ∈ m, p.1 ≠ k) :
    lookupD (m ++ [(k, v)]) k = v := by
  induction m with
  | nil => simp [lookupD]
  | cons p ps ih =>
    have hp : (p.1 == k) = false :=
      beq_eq_false_iff_ne.mpr (hall p (by simp))
    rw [List.cons_append, lookupD_cons]
    simp only [hp, Bool.false_eq_true, if_false]
    exact ih fun q hq => hall q (by simp [hq])

theorem lookupD_mapInsert_self (m : List (String × Value)) (k : String)
    (v : Value) : lookupD (mapInsert m k v) k = v := by
  unfold mapInsert
  split
  · rename_i hany
    exact lookupD_map_update_self m k v hany
  · rename_i hany
    apply lookupD_append_singleton_self
    intro p hp hc
    exact hany (List.any_eq_true.mpr ⟨p, hp, beq_iff_eq.mpr hc⟩)

theorem lookupD_mapInsert_ne (m : List (String × Value)) (k k' : String)
    (v : Value) (h : k' ≠ k) :
    lookupD (mapInsert m k v) k' = lookupD m k' := by
  unfold mapInsert
  split
  · exact lookupD_map_update_ne m k k' v h
  · exact lookupD_append_singleton_ne m k k' v h

theorem mem_keys_mapInsert (m : List (String × Value)) (k x : String)
    (v : Value) :
    x ∈ (mapInsert m k v).map Prod.fst ↔ x = k ∨ x ∈ m.map Prod.fst := by
  unfold mapInsert
  split
  · rename_i hany
    simp only [List.mem_map] at *
    constructor
    · rintro ⟨p, hp, hx⟩
      rcases hp with ⟨q, hq, hqe⟩
      by_cases hqk : q.1 = k
      · simp only [hqk, beq_self_eq_true, if_pos] at hqe
        subst hqe
        left; exact hx.symm
      · have : (q.1 == k) = false := beq_eq_false_iff_ne.mpr hqk
        simp only [this, Bool.false_eq_true, if_neg, reduceCtorEq] at hqe
        subst hqe
        right; exact ⟨q, hq, hx⟩
    · rintro (hx | ⟨p, hp, hx⟩)
      · simp only [List.any_eq_true, beq_iff_eq] at hany
        rcases hany with ⟨q, hq, hqk⟩
        refine ⟨(k, v), ⟨q, hq, ?_⟩, hx.symm⟩
        simp [hqk]
      · by_cases hpk : p.1 = k
        · refine ⟨(k, v), ⟨p, hp, by simp [hpk]⟩, by simp [← hx, hpk]⟩
        · have : (p.1 == k) = false := beq_eq_false_iff_ne.mpr hpk
          exact ⟨p, ⟨p, hp, by simp [this]⟩, hx⟩
  · simp only [List.map_append, List.mem_append, List.map_cons,
      List.map_nil, List.mem_singleton, List.mem_cons]
    tauto

/-! ### Sorting lemmas -/

theorem mem_insertSorted (s x : String) (l : List String) :
    x ∈ insertSorted s l ↔ x = s ∨ x ∈ l := by
  induction l with
  | nil => simp [insertSorted]
  | cons t ts ih =>
    simp only [insertSorted]
    by_cases h : strLt t s
    · simp only [if_pos h, List.mem_cons, ih]
      tauto
    · simp only [Bool.eq_false_iff.mpr h, Bool.false_eq_true, if_false,
        List.mem_cons]

theorem length_insertSorted (s : String) (l : List String) :
    (insertSorted s l).length = l.length + 1 := by
  induction l with
  | nil => simp [insertSorted]
  | cons t ts ih =>
    by_cases h : strLt t s
    · simp [insertSorted, h, ih]
    · simp [insertSorted, h]

theorem mem_sortStrings (x : String) (l : List String) :
    x ∈ sortStrings l ↔ x ∈ l := by
  induction l with
  | nil => simp [sortStrings]
  | cons s ss ih => simp [sortStrings, mem_insertSorted, ih]

theorem length_sortStrings (l : List String) :
    (sortStrings l).length = l.length := by
  induction l with
  | nil => simp [sortStrings]
  | cons s ss ih => simp [sortStrings, length_insertSorted, ih]

theorem mem_sortedKeys (m : List (String × Value)) (x : String) :
    x ∈ sortedKeys m ↔ x ∈ m.map Prod.fst := by
  simp [sortedKeys, mem_sortStrings]

theorem length_sortedKeys (m : List (String × Value)) :
    (sortedKeys m).length = m.length := by
  simp [sortedKeys, length_sortStrings]

/-! ### Extraction-loop lemmas -/

theorem mem_keys_extractFields (excl : List String) (now : Nat)
    (fs : List Field) (attrs : List (String × Value)) (x : String) :
    x ∈ (extractFields excl now fs attrs).map Prod.fst ↔
      x ∈ attrs.map Prod.fst ∨
        ∃ f ∈ fs, includedField excl f = true ∧ f.dbName = x := by
  induction fs generalizing attrs with
  | nil => simp [extractFields]
  | cons f fs ih =>
    simp only [extractFields]
    by_cases hf : includedField excl f
    · rw [if_pos hf, ih, mem_keys_mapInsert]
      constructor
      · rintro ((hx | hx) | ⟨g, hg, hgi, hgx⟩)
        · exact Or.inr ⟨f, by simp, hf, hx.symm⟩
        · exact Or.inl hx
        · exact Or.inr ⟨g, by simp [hg], hgi, hgx⟩
      · rintro (hx | ⟨g, hg, hgi, hgx⟩)
        · exact Or.inl (Or.inr hx)
        · rcases List.mem_cons.mp hg with hg | hg
          · subst hg
            exact Or.inl (Or.inl hgx.symm)
          · exact Or.inr ⟨g, hg, hgi, hgx⟩
    · rw [if_neg hf, ih]
      constructor
      · rintro (hx | ⟨g, hg, hgi, hgx⟩)
        · exact Or.inl hx
        · exact Or.inr ⟨g, by simp [hg], hgi, hgx⟩
      · rintro (hx | ⟨g, hg, hgi, hgx⟩)
        · exact Or.inl hx
        · rcases List.mem_cons.mp hg with hg | hg
          · subst hg
            exact absurd hgi (by simpa using hf)
          · exact Or.inr ⟨g, hg, hgi, hgx⟩

theorem lookupD_extractFields_stable (excl : List String) (now : Nat)
    (d : String) (v : Value) :
    ∀ (fs : List Field) (attrs : List (String × Value)),
      (∀ h ∈ fs, includedField excl h = true → h.dbName = d →
        fieldValue h now = v) →
      lookupD attrs d = v →
      lookupD (extractFields excl now fs attrs) d = v := by
  intro fs
  induction fs with
  | nil => intro attrs _ h0; exact h0
  | cons f fs ih =>
    intro attrs hv h0
    simp only [extractFields]
    by_cases hf : includedField excl f
    · rw [if_pos hf]
      apply ih _ (fun h hh => hv h (by simp [hh]))
      by_cases hd : f.dbName = d
      · rw [hd, lookupD_mapInsert_self]
        exact hv f (by simp) hf hd
      · rw [lookupD_mapInsert_ne _ _ _ _ (fun hc => hd hc.symm)]
        exact h0
    · rw [if_neg hf]
      exact ih _ (fun h hh => hv h (by simp [hh])) h0

theorem lookupD_extractFields_mem (excl : List String) (now : Nat)
    (f : Field) :
    ∀ (fs : List Field) (attrs : List (String × Value)),
      f ∈ fs → includedField excl f = true →
      (∀ g ∈ fs, includedField excl g = true → g.dbName = f.dbName →
        fieldValue g now = fieldValue f now) →
      lookupD (extractFields excl now fs attrs) f.dbName =
        fieldValue f now := by
  intro fs
  induction fs with
  | nil => intro attrs hmem; simp at hmem
  | cons g gs ih =>
    intro attrs hmem hinc hv
    rcases List.mem_cons.mp hmem with hg | hg
    · subst hg
      simp only [extractFields, if_pos hinc]
      apply lookupD_extractFields_stable
      · exact fun h hh => hv h (by simp [hh])
      · exact lookupD_mapInsert_self _ _ _
    · simp only [extractFields]
      by_cases hgf : includedField excl g
      · rw [if_pos hgf]
        exact ih _ hg hinc (fun h hh => hv h (by simp [hh]))
      · rw [if_neg hgf]
        exact ih _ hg hinc (fun h hh => hv h (by simp [hh]))

/-! ### Chunker lemmas -/

theorem splitGo_fuel_eq {α : Type} (size : Nat) (hs : size ≠ 0) :
    ∀ (n : Nat) (l : List α) (m : Nat), l.length ≤ n → l.length ≤ m →
      splitGo size n l = splitGo size m l := by
  intro n
  induction n with
  | zero =>
    intro l m hn _
    have : l = [] := List.eq_nil_of_length_eq_zero (Nat.le_zero.mp hn)
    subst this
    cases m <;> rfl
  | succ n ih =>
    intro l m hn hm
    cases l with
    | nil => cases m <;> rfl
    | cons x xs =>
      cases m with
      | zero => simp at hm
      | succ m =>
        simp only [splitGo]
        congr 1
        apply ih
        · simp only [List.length_drop, List.length_cons]
          simp only [List.length_cons] at hn
          omega
        · simp only [List.length_drop, List.length_cons]
          simp only [List.length_cons] at hm
          omega

theorem splitObjects_nil {α : Type} (size : Nat) :
    splitObjects ([] : List α) size = [] := by
  unfold splitObjects
  split <;> rfl

theorem splitObjects_cons {α : Type} (x : α) (xs : List α) (size : Nat)
    (hs : size ≠ 0) :
    splitObjects (x :: xs) size =
      (x :: xs).take size :: splitObjects ((x :: xs).drop size) size := by
  unfold splitObjects
  rw [if_neg (by simpa using hs), if_neg (by simpa using hs)]
  simp only [List.length_cons, splitGo]
  congr 1
  apply splitGo_fuel_eq size hs
  · simp only [List.length_drop, List.length_cons]
    omega
  · exact le_rfl

theorem splitObjects_flatten {α : Type} (size : Nat) (hs : size ≠ 0) :
    ∀ (n : Nat) (l : List α), l.length ≤ n →
      (splitObjects l size).flatten = l := by
  intro n
  induction n with
  | zero =>
    intro l hn
    have : l = [] := List.eq_nil_of_length_eq_zero (Nat.le_zero.mp hn)
    subst this
    simp [splitObjects_nil]
  | succ n ih =>
    intro l hn
    cases l with
    | nil => simp [splitObjects_nil]
    | cons x xs =>
      rw [splitObjects_cons x xs size hs, List.flatten_cons]
      rw [ih ((x :: xs).drop size)
        (by simp only [List.length_drop, List.length_cons]
            simp only [List.length_cons] at hn
            omega)]
      exact List.take_append_drop size (x :: xs)

theorem splitObjects_chunk_length {α : Type} (size : Nat) (hs : size ≠ 0) :
    ∀ (n : Nat) (l : List α) (c : List α), l.length ≤ n →
      c ∈ splitObjects l size → c.length ≤ size := by
  intro n
  induction n with
  | zero =>
    intro l c hn hc
    have : l = [] := List.eq_nil_of_length_eq_zero (Nat.le_zero.mp hn)
    subst this
    simp [splitObjects_nil] at hc
  | succ n ih =>
    intro l c hn hc
    cases l with
    | nil => simp [splitObjects_nil] at hc
    | cons x xs =>
      rw [splitObjects_cons x xs size hs] at hc
      rcases List.mem_cons.mp hc with hc | hc
      · subst hc
        simp [List.length_take]
      · exact ih ((x :: xs).drop size) c
          (by simp only [List.length_drop, List.length_cons]
              simp only [List.length_cons] at hn
              omega) hc

theorem splitObjects_count {α : Type} (size : Nat) (hs : size ≠ 0) :
    ∀ (n : Nat) (l : List α), l.length ≤ n → l ≠ [] →
      (splitObjects l size).length = (l.length - 1) / size + 1 := by
  intro n
  induction n with
  | zero =>
    intro l hn hne
    exact absurd (List.eq_nil_of_length_eq_zero (Nat.le_zero.mp hn)) hne
  | succ n ih =>
    intro l hn hne
    cases l with
    | nil => exact absurd rfl hne
    | cons x xs =>
      rw [splitObjects_cons x xs size hs]
      by_cases hd : (x :: xs).drop size = []
      · rw [hd, splitObjects_nil]
        have hlen : xs.length + 1 ≤ size := by
          have h0 := congrArg List.length hd
          simp only [List.length_drop, List.length_cons,
            List.length_nil] at h0
          omega
        have hdiv : ((x :: xs).length - 1) / size = 0 := by
          apply Nat.div_eq_of_lt
          simp only [List.length_cons]
          omega
        simp only [hdiv, List.length_singleton]
      · have hltlen : size < xs.length + 1 := by
          by_contra hcon
          push_neg at hcon
          exact hd (List.drop_eq_nil_of_le
            (by simp only [List.length_cons]; omega))
        rw [List.length_cons]
        rw [ih ((x :: xs).drop size)
          (by simp only [List.length_drop, List.length_cons]
              simp only [List.length_cons] at hn
              omega) hd]
        have e1 : ((x :: xs).drop size).length - 1 = xs.length - size := by
          simp only [List.length_drop, List.length_cons]
          omega
        have e2 : (xs.length - size) / size + 1 = xs.length / size := by
          rw [← Nat.add_div_right (xs.length - size)
            (Nat.pos_of_ne_zero hs)]
          congr 1
          omega
        have e3 : (x :: xs).length - 1 = xs.length := by
          simp only [List.length_cons]
          omega
        rw [e1, e2, e3]

theorem mem_of_mem_splitObjects {α : Type} (size : Nat) (l : List α)
    (c : List α) (x : α) (hc : c ∈ splitObjects l size) (hx : x ∈ c) :
    x ∈ l := by
  by_cases hs : size = 0
  · subst hs
    unfold splitObjects at hc
    simp at hc
  · have hj := splitObjects_flatten size hs l.length l le_rfl
    rw [← hj]
    exact List.mem_flatten.mpr ⟨c, hc, hx⟩

theorem ne_nil_of_mem_splitObjects' {α : Type} (size : Nat)
    (hs : size ≠ 0) :
    ∀ (n : Nat) (l c : List α), l.length ≤ n →
      c ∈ splitObjects l size → c ≠ [] := by
  intro n
  induction n with
  | zero =>
    intro l c hn hc
    have : l = [] := List.eq_nil_of_length_eq_zero (Nat.le_zero.mp hn)
    subst this
    simp [splitObjects_nil] at hc
  | succ n ih =>
    intro l c hn hc
    cases l with
    | nil => simp [splitObjects_nil] at hc
    | cons y ys =>
      rw [splitObjects_cons y ys size hs] at hc
      rcases List.mem_cons.mp hc with hc | hc
      · subst hc
        simp [List.take_eq_nil_iff, hs]
      · exact ih ((y :: ys).drop size) c
          (by simp only [List.length_drop, List.length_cons]
              simp only [List.length_cons] at hn
              omega) hc

theorem ne_nil_of_mem_splitObjects {α : Type} (size : Nat) (l : List α)
    (c : List α) (hc : c ∈ splitObjects l size) : c ≠ [] := by
  by_cases hs : size = 0
  · subst hs
    unfold splitObjects at hc
    simp at hc
  · exact ne_nil_of_mem_splitObjects' size hs l.length l c le_rfl hc

/-! ### Statement-builder lemmas -/

theorem extractMapValue_nonstruct (v : GoValue) (excl : List String)
    (now : Nat) (h : v.isStruct = false) :
    extractMapValue v excl now = .error structKindErr := by
  cases v with
  | struct t fs => simp [GoValue.isStruct] at h
  | mapValue ps => rfl
  | primitive q => rfl

theorem extractMapValue_struct (t : String) (fs : List Field)
    (excl : List String) (now : Nat) :
    extractMapValue (GoValue.struct t fs) excl now =
      .ok (extractFields excl now fs []) := rfl

theorem buildRows_ok (excl : List String) (now : Nat)
    (m : GoValue → List (String × Value)) (n : Nat) :
    ∀ objs : List GoValue,
      (∀ r ∈ objs, extractMapValue r excl now = .ok (m r)) →
      (∀ r ∈ objs, (m r).length = n) →
      buildRows excl now n objs =
        .ok (objs.map fun r => (sortedKeys (m r)).length,
          (objs.map fun r =>
            (sortedKeys (m r)).map (lookupD (m r))).flatten) := by
  intro objs
  induction objs with
  | nil => intro _ _; rfl
  | cons o os ih =>
    intro hex hlen
    simp only [buildRows]
    rw [hex o (List.mem_cons_self o os)]
    simp only []
    rw [if_neg (by simp [hlen o (List.mem_cons_self o os)])]
    rw [ih (fun r hr => hex r (List.mem_cons_of_mem o hr))
      (fun r hr => hlen r (List.mem_cons_of_mem o hr))]
    simp

theorem buildRows_error_of_mismatch (excl : List String) (now : Nat)
    (m : GoValue → List (String × Value)) (n : Nat) :
    ∀ objs : List GoValue,
      (∀ r ∈ objs, extractMapValue r excl now = .ok (m r)) →
      (∃ r ∈ objs, (m r).length ≠ n) →
      buildRows excl now n objs = .error inconsistentErr := by
  intro objs
  induction objs with
  | nil => rintro _ ⟨r, hr, _⟩; simp at hr
  | cons o os ih =>
    rintro hex ⟨r, hr, hrn⟩
    simp only [buildRows]
    rw [hex o (List.mem_cons_self o os)]
    simp only []
    by_cases ho : (m o).length = n
    · rw [if_neg (by simp [ho])]
      have hros : ∃ r ∈ os, (m r).length ≠ n := by
        rcases List.mem_cons.mp hr with hr | hr
        · subst hr; exact absurd ho hrn
        · exact ⟨r, hr, hrn⟩
      rw [ih (fun q hq => hex q (List.mem_cons_of_mem o hq)) hros]
    · rw [if_pos (by simpa using ho)]

theorem buildRows_error_of_nonstruct (excl : List String) (now : Nat)
    (n : Nat) :
    ∀ objs : List GoValue,
      (∃ r ∈ objs, r.isStruct = false) →
      ∃ e, buildRows excl now n objs = .error e := by
  intro objs
  induction objs with
  | nil => rintro ⟨r, hr, _⟩; simp at hr
  | cons o os ih =>
    rintro ⟨r, hr, hrs⟩
    by_cases hos : o.isStruct = false
    · refine ⟨structKindErr, ?_⟩
      simp only [buildRows]
      rw [extractMapValue_nonstruct o excl now hos]
    · cases hex : extractMapValue o excl now with
      | error e =>
        exact ⟨e, by simp only [buildRows]; rw [hex]⟩
      | ok attrs =>
        have hro : ∃ q ∈ os, q.isStruct = false := by
          rcases List.mem_cons.mp hr with hr | hr
          · subst hr; exact absurd hrs hos
          · exact ⟨r, hr, hrs⟩
        obtain ⟨e, he⟩ := ih hro
        by_cases hl : attrs.length = n
        · refine ⟨e, ?_⟩
          simp only [buildRows]
          rw [hex]
          simp only []
          rw [if_neg (by simp [hl]), he]
        · refine ⟨inconsistentErr, ?_⟩
          simp only [buildRows]
          rw [hex]
          simp only []
          rw [if_pos (by simpa using hl)]

theorem buildStatement_cons (first : GoValue) (rest : List GoValue)
    (excl : List String) (now : Nat) (fa : List (String × Value))
    (ps : List Nat) (vs : List Value)
    (hfa : extractMapValue first excl now = .ok fa)
    (hrows : buildRows excl now fa.length (first :: rest) = .ok (ps, vs)) :
    buildStatement (first :: rest) excl now =
      .ok (some
        { table := first.tableName
          columns := (sortedKeys fa).map toColumnName
          placeholders := ps
          duplicates :=
            (first.fields.filter (conflictField excl)).map Field.dbName
          vars := vs }) := by
  simp only [buildStatement]
  rw [hfa]
  simp only []
  rw [hrows]

theorem buildStatement_error_extract (first : GoValue)
    (rest : List GoValue) (excl : List String) (now : Nat) (e : String)
    (hfa : extractMapValue first excl now = .error e) :
    buildStatement (first :: rest) excl now = .error e := by
  simp only [buildStatement]
  rw [hfa]

theorem buildStatement_error_rows (first : GoValue) (rest : List GoValue)
    (excl : List String) (now : Nat) (fa : List (String × Value))
    (e : String) (hfa : extractMapValue first excl now = .ok fa)
    (hrows : buildRows excl now fa.length (first :: rest) = .error e) :
    buildStatement (first :: rest) excl now = .error e := by
  simp only [buildStatement]
  rw [hfa]
  simp only []
  rw [hrows]

theorem buildStatement_cons_ne_ok_none (o : GoValue)
    (os : List GoValue) (excl : List String) (now : Nat) :
    buildStatement (o :: os) excl now ≠ .ok none := by
  simp only [buildStatement]
  cases hex : extractMapValue o excl now with
  | error e => simp
  | ok fa =>
    simp only []
    cases hrows : buildRows excl now fa.length (o :: os) with
    | error e => simp
    | ok pv => simp

theorem buildStatement_error_of_nonstruct (objs : List GoValue)
    (excl : List String) (now : Nat) (r : GoValue) (hr : r ∈ objs)
    (hrs : r.isStruct = false) :
    ∃ e, buildStatement objs excl now = .error e := by
  cases objs with
  | nil => simp at hr
  | cons o os =>
    by_cases hos : o.isStruct = false
    · exact ⟨structKindErr, buildStatement_error_extract o os excl now _
        (extractMapValue_nonstruct o excl now hos)⟩
    · cases hex : extractMapValue o excl now with
      | error e => exact ⟨e, buildStatement_error_extract o os excl now e hex⟩
      | ok fa =>
        obtain ⟨e, he⟩ :=
          buildRows_error_of_nonstruct excl now fa.length (o :: os)
            ⟨r, hr, hrs⟩
        exact ⟨e, buildStatement_error_rows o os excl now fa e hex he⟩

/-! ### Upsert and chunk-loop lemmas -/

theorem upsertObjSet_nil (exec : Statement → Option String)
    (excl : List String) (now : Nat) :
    upsertObjSet exec [] excl now = .ok none := rfl

theorem upsertObjSet_build_error (exec : Statement → Option String)
    (objs : List GoValue) (excl : List String) (now : Nat) (e : String)
    (hbs : buildStatement objs excl now = .error e) :
    upsertObjSet exec objs excl now = .error e := by
  simp only [upsertObjSet]
  rw [hbs]

theorem upsertObjSet_exec_ok (exec : Statement → Option String)
    (objs : List GoValue) (excl : List String) (now : Nat)
    (stmt : Statement)
    (hbs : buildStatement objs excl now = .ok (some stmt))
    (hexec : exec stmt = none) :
    upsertObjSet exec objs excl now = .ok (some stmt) := by
  simp only [upsertObjSet]
  rw [hbs]
  simp only []
  rw [hexec]

theorem upsertObjSet_exec_error (exec : Statement → Option String)
    (objs : List GoValue) (excl : List String) (now : Nat)
    (stmt : Statement) (err : String)
    (hbs : buildStatement objs excl now = .ok (some stmt))
    (hexec : exec stmt = some err) :
    upsertObjSet exec objs excl now = .error err := by
  simp only [upsertObjSet]
  rw [hbs]
  simp only []
  rw [hexec]

theorem upsertObjSet_ok_none_imp (exec : Statement → Option String)
    (objs : List GoValue) (excl : List String) (now : Nat)
    (h : upsertObjSet exec objs excl now = .ok none) : objs = [] := by
  cases objs with
  | nil => rfl
  | cons o os =>
    exfalso
    cases hbs : buildStatement (o :: os) excl now with
    | error e =>
      rw [upsertObjSet_build_error exec _ excl now e hbs] at h
      exact Except.noConfusion h
    | ok o' =>
      cases o' with
      | none => exact buildStatement_cons_ne_ok_none o os excl now hbs
      | some stmt =>
        cases hexec : exec stmt with
        | none =>
          rw [upsertObjSet_exec_ok exec _ excl now stmt hbs hexec] at h
          simp at h
        | some err =>
          rw [upsertObjSet_exec_error exec _ excl now stmt err hbs hexec]
            at h
          exact Except.noConfusion h

theorem runChunks_nil (exec : Statement → Option String)
    (excl : List String) (now : Nat) :
    runChunks exec excl now [] = .ok [] := rfl

theorem runChunks_append_error (exec : Statement → Option String)
    (excl : List String) (now : Nat) :
    ∀ (pre : List (List GoValue)) (bad : List GoValue)
      (rest : List (List GoValue)) (e : String),
      (∀ c ∈ pre, ∃ r, upsertObjSet exec c excl now = .ok r) →
      upsertObjSet exec bad excl now = .error e →
      runChunks exec excl now (pre ++ bad :: rest) = .error e := by
  intro pre
  induction pre with
  | nil =>
    intro bad rest e _ hbad
    simp only [List.nil_append, runChunks]
    rw [hbad]
  | cons c cs ih =>
    intro bad rest e hok hbad
    obtain ⟨r, hr⟩ := hok c (List.mem_cons_self c cs)
    simp only [List.cons_append, runChunks]
    rw [hr]
    cases r with
    | none =>
      exact ih bad rest e (fun d hd => hok d (List.mem_cons_of_mem c hd))
        hbad
    | some s =>
      simp only [List.append_eq]
      rw [ih bad rest e (fun d hd => hok d (List.mem_cons_of_mem c hd))
        hbad]

theorem runChunks_ok (exec : Statement → Option String)
    (excl : List String) (now : Nat) :
    ∀ chunks : List (List GoValue),
      (∀ c ∈ chunks, ∃ r, upsertObjSet exec c excl now = .ok r) →
      ∃ stmts, runChunks exec excl now chunks = .ok stmts ∧
        stmts.length = (chunks.filter fun c => !c.isEmpty).length := by
  intro chunks
  induction chunks with
  | nil => intro _; exact ⟨[], rfl, rfl⟩
  | cons c cs ih =>
    intro hok
    obtain ⟨r, hr⟩ := hok c (List.mem_cons_self c cs)
    obtain ⟨stmts, hst, hlen⟩ :=
      ih fun d hd => hok d (List.mem_cons_of_mem c hd)
    cases r with
    | none =>
      have hc : c = [] := upsertObjSet_ok_none_imp exec c excl now hr
      subst hc
      refine ⟨stmts, ?_, ?_⟩
      · simp only [runChunks]
        rw [hr]
        exact hst
      · simpa using hlen
    | some s =>
      have hc : c ≠ [] := by
        intro hc
        subst hc
        rw [upsertObjSet_nil exec excl now] at hr
        simp at hr
      refine ⟨s :: stmts, ?_, ?_⟩
      · simp only [runChunks]
        rw [hr]
        simp only []
        rw [hst]
      · have : (c :: cs).filter (fun c => !c.isEmpty) =
            c :: cs.filter (fun c => !c.isEmpty) := by
          rw [List.filter_cons]
          rw [if_pos (by simpa [List.isEmpty_iff] using hc)]
        rw [this]
        simpa using hlen

/-! ### Candidacy-filter helper lemmas -/

theorem includedField_excl_false (excl : List String) (f : Field)
    (h : includedField excl f = true) :
    containString excl f.structName = false := by
  unfold includedField at h
  simp only [Bool.and_eq_true, Bool.not_eq_true'] at h
  exact h.1.1.1

theorem conflictField_excl_false (excl : List String) (f : Field)
    (h : conflictField excl f = true) :
    containString excl f.structName = false := by
  unfold conflictField at h
  simp only [Bool.and_eq_true, Bool.not_eq_true'] at h
  exact h.1.1.1.1.1.1

theorem conflictField_key_false (excl : List String) (f : Field)
    (hkey : f.isPrimaryKey = true ∨ f.isUnique = true ∨
      f.hasUniqueIndex = true) :
    conflictField excl f = false := by
  unfold conflictField
  rcases hkey with h | h | h <;> simp [h]

theorem dbName_nodup_of_column_nodup (fields : List Field)
    (hnd : (fields.map fun g => toColumnName g.dbName).Nodup) :
    (fields.map Field.dbName).Nodup := by
  apply List.Nodup.of_map toColumnName
  rw [List.map_map]
  exact hnd

theorem buildStatement_ok_inv (first : GoValue) (rest : List GoValue)
    (excl : List String) (now : Nat) (stmt : Statement)
    (hbs : buildStatement (first :: rest) excl now = .ok (some stmt)) :
    ∃ fa, extractMapValue first excl now = .ok fa ∧
      stmt.table = first.tableName ∧
      stmt.columns = (sortedKeys fa).map toColumnName ∧
      stmt.duplicates =
        (first.fields.filter (conflictField excl)).map Field.dbName := by
  cases hex : extractMapValue first excl now with
  | error e =>
    rw [buildStatement_error_extract first rest excl now e hex] at hbs
    exact Except.noConfusion hbs
  | ok fa =>
    cases hrows : buildRows excl now fa.length (first :: rest) with
    | error e =>
      rw [buildStatement_error_rows first rest excl now fa e hex hrows]
        at hbs
      exact Except.noConfusion hbs
    | ok pv =>
      rw [buildStatement_cons first rest excl now fa pv.1 pv.2 hex
        (by rw [hrows])] at hbs
      have hstmt := Option.some.inj (Except.ok.inj hbs)
      refine ⟨fa, rfl, ?_, ?_, ?_⟩ <;> rw [← hstmt]

/-! ### Concrete fixtures used by witnesses and counterexamples -/

/-- A plain writable field: no tags, no relationship, not blank. -/
def plainField (nm db : String) (v : Nat) : Field :=
  { structName := nm, dbName := db, hasForeignKey := false,
    isUnique := false, hasUniqueIndex := false, hasRelationship := false,
    isIgnored := false, isPrimaryKey := false, hasDefaultValue := false,
    isBlank := false, defaultTag := none, value := .raw v }

/-- A database collaborator that accepts every statement. -/
def execNone : Statement → Option String := fun _ => none

/-- A database collaborator that rejects statements aimed at table
`bad`. -/
def execSel : Statement → Option String := fun s =>
  if s.table == "bad" then some ("boom") else none

/-! ## The claims -/

/-- C7: for every non-empty record collection and positive chunk size, the
chunker produces `ceil(count / size)` chunks, each of size at most
`size`, and concatenating the chunks in order reproduces the original
sequence. -/
theorem chunker_partition_spec {α : Type} (l : List α) (size : Nat)
    (hne : l ≠ []) (hs : 0 < size) :
    (splitObjects l size).length = (l.length + size - 1) / size ∧
    (∀ c ∈ splitObjects l size, c.length ≤ size) ∧
    (splitObjects l size).flatten = l := by
  have hs' : size ≠ 0 := Nat.pos_iff_ne_zero.mp hs
  refine ⟨?_, ?_, ?_⟩
  · rw [splitObjects_count size hs' l.length l le_rfl hne]
    have h1 : l.length + size - 1 = (l.length - 1) + size := by
      have : 0 < l.length := List.length_pos.mpr hne
      omega
    rw [h1, Nat.add_div_right _ hs]
  · exact fun c hc =>
      splitObjects_chunk_length size hs' l.length l c le_rfl hc
  · exact splitObjects_flatten size hs' l.length l le_rfl

/-- Witness for C7 at a concrete input: five records, chunk size two. -/
theorem chunker_partition_spec_witness :
    (([1, 2, 3, 4, 5] : List Nat) ≠ [] ∧ 0 < 2) ∧
    ((splitObjects ([1, 2, 3, 4, 5] : List Nat) 2).length =
        (([1, 2, 3, 4, 5] : List Nat).length + 2 - 1) / 2 ∧
      (∀ c ∈ splitObjects ([1, 2, 3, 4, 5] : List Nat) 2,
        c.length ≤ 2) ∧
      (splitObjects ([1, 2, 3, 4, 5] : List Nat) 2).flatten =
        [1, 2, 3, 4, 5]) :=
  ⟨⟨by decide, by decide⟩,
    chunker_partition_spec [1, 2, 3, 4, 5] 2 (by decide) (by decide)⟩

/-- C6: when every record of a chunk extracts successfully but some
record's attribute map has a different size from the first record's, the
chunk fails with the inconsistent-shape error and no SQL statement is
issued for it (the result is that error for every database
collaborator, which is therefore never consulted). -/
theorem inconsistent_sizes_error (first : GoValue) (rest : List GoValue)
    (excl : List String) (now : Nat)
    (m : GoValue → List (String × Value))
    (hm : ∀ r ∈ first :: rest, extractMapValue r excl now = .ok (m r))
    (hdiff : ∃ r ∈ first :: rest, (m r).length ≠ (m first).length) :
    buildStatement (first :: rest) excl now = .error inconsistentErr ∧
    ∀ exec, upsertObjSet exec (first :: rest) excl now =
      .error inconsistentErr := by
  have hfa : extractMapValue first excl now = .ok (m first) :=
    hm first (List.mem_cons_self first rest)
  have hrows := buildRows_error_of_mismatch excl now m (m first).length
    (first :: rest) hm hdiff
  have hb := buildStatement_error_rows first rest excl now (m first)
    inconsistentErr hfa hrows
  exact ⟨hb, fun exec =>
    upsertObjSet_build_error exec _ excl now _ hb⟩

/-- Two records of different shapes: one field versus two. -/
def recOneField : GoValue := .struct ("t") [plainField ("A") ("a") 1]

/-- See `recOneField`. -/
def recTwoFields : GoValue :=
  .struct ("t") [plainField ("A") ("a") 1, plainField ("B") ("b") 2]

/-- The attribute map each witness record extracts to. -/
def attrsOf (r : GoValue) : List (String × Value) :=
  extractFields [] 5 r.fields []

/-- Witness for C6 at a concrete input: a chunk whose second record has
one more attribute than the first. -/
theorem inconsistent_sizes_error_witness :
    (∀ r ∈ recOneField :: [recTwoFields],
      extractMapValue r [] 5 = .ok (attrsOf r)) ∧
    (∃ r ∈ recOneField :: [recTwoFields],
      (attrsOf r).length ≠ (attrsOf recOneField).length) ∧
    buildStatement (recOneField :: [recTwoFields]) [] 5 =
      .error inconsistentErr ∧
    upsertObjSet execNone (recOneField :: [recTwoFields]) [] 5 =
      .error inconsistentErr := by
  have h1 : ∀ r ∈ recOneField :: [recTwoFields],
      extractMapValue r [] 5 = .ok (attrsOf r) := by
    intro r hr
    rcases List.mem_cons.mp hr with h | h
    · subst h; rfl
    · rcases List.mem_singleton.mp h with h
      subst h; rfl
  have h2 : ∃ r ∈ recOneField :: [recTwoFields],
      (attrsOf r).length ≠ (attrsOf recOneField).length :=
    ⟨recTwoFields, by simp, by decide⟩
  have h := inconsistent_sizes_error recOneField [recTwoFields] [] 5
    attrsOf h1 h2
  exact ⟨h1, h2, h.1, h.2 execNone⟩

/-- C8: a record whose underlying shape is not a struct is rejected by
value extraction with the shape error, and a chunk containing it fails
during building, before the database collaborator is consulted. -/
theorem nonstruct_shape_error (objs : List GoValue) (excl : List String)
    (now : Nat) (r : GoValue) (hr : r ∈ objs)
    (hrs : r.isStruct = false) :
    extractMapValue r excl now = .error structKindErr ∧
    ∃ e, buildStatement objs excl now = .error e ∧
      ∀ exec, upsertObjSet exec objs excl now = .error e := by
  refine ⟨extractMapValue_nonstruct r excl now hrs, ?_⟩
  obtain ⟨e, he⟩ := buildStatement_error_of_nonstruct objs excl now r hr hrs
  exact ⟨e, he, fun exec =>
    upsertObjSet_build_error exec _ excl now _ he⟩

/-- Witness for C8 at a concrete input: a primitive record. -/
theorem nonstruct_shape_error_witness :
    (GoValue.primitive (Value.raw 3) ∈ [GoValue.primitive (Value.raw 3)] ∧
      (GoValue.primitive (Value.raw 3)).isStruct = false) ∧
    (extractMapValue (GoValue.primitive (Value.raw 3)) [] 0 =
        .error structKindErr ∧
      ∃ e, buildStatement [GoValue.primitive (Value.raw 3)] [] 0 =
          .error e ∧
        ∀ exec, upsertObjSet exec [GoValue.primitive (Value.raw 3)] [] 0 =
          .error e) :=
  ⟨⟨by simp, by decide⟩,
    nonstruct_shape_error [GoValue.primitive (Value.raw 3)] [] 0
      (GoValue.primitive (Value.raw 3)) (by simp) (by decide)⟩

/-- C3: a field whose logical name is in the exclusion set contributes no
attribute (hence no bound value), no INSERT column, and no conflict-clause
entry, for any exclusion-set content.  The record's fields are assumed to
map to pairwise distinct emitted column names (gorm's normal situation),
since a *different* field sharing the same column name could otherwise
legitimately put that name in the lists. -/
theorem excluded_field_absent (tbl : String) (fields : List Field)
    (f : Field) (rest : List GoValue) (excl : List String) (now : Nat)
    (attrs : List (String × Value)) (stmt : Statement)
    (hf : f ∈ fields) (hexcl : containString excl f.structName = true)
    (hnd : (fields.map fun g => toColumnName g.dbName).Nodup)
    (hex : extractMapValue (GoValue.struct tbl fields) excl now =
      .ok attrs)
    (hbs : buildStatement (GoValue.struct tbl fields :: rest) excl now =
      .ok (some stmt)) :
    f.dbName ∉ attrs.map Prod.fst ∧
    toColumnName f.dbName ∉ stmt.columns ∧
    f.dbName ∉ stmt.duplicates := by
  have hnd' : (fields.map Field.dbName).Nodup :=
    dbName_nodup_of_column_nodup fields hnd
  have hattrs : attrs = extractFields excl now fields [] :=
    (Except.ok.inj hex).symm
  have hkeys : ∀ x, x ∈ attrs.map Prod.fst →
      ∃ g ∈ fields, includedField excl g = true ∧ g.dbName = x := by
    intro x hx
    rw [hattrs, mem_keys_extractFields] at hx
    rcases hx with hx | hx
    · simp at hx
    · exact hx
  refine ⟨?_, ?_, ?_⟩
  · intro hmem
    obtain ⟨g, hg, hgi, hgd⟩ := hkeys f.dbName hmem
    have hgf : g = f := List.inj_on_of_nodup_map hnd' hg hf hgd
    rw [hgf] at hgi
    rw [includedField_excl_false excl f hgi] at hexcl
    exact Bool.noConfusion hexcl
  · intro hmem
    obtain ⟨fa, hfa, _, hcols, _⟩ :=
      buildStatement_ok_inv (GoValue.struct tbl fields) rest excl now
        stmt hbs
    have hfaa : fa = attrs := Except.ok.inj (hfa.symm.trans hex)
    rw [hcols, hfaa] at hmem
    obtain ⟨k, hk, hkeq⟩ := List.mem_map.mp hmem
    rw [mem_sortedKeys] at hk
    obtain ⟨g, hg, hgi, hgd⟩ := hkeys k hk
    have hgf : g = f :=
      List.inj_on_of_nodup_map hnd hg hf (by rw [hgd, hkeq])
    rw [hgf] at hgi
    rw [includedField_excl_false excl f hgi] at hexcl
    exact Bool.noConfusion hexcl
  · intro hmem
    obtain ⟨fa, _, _, _, hdups⟩ :=
      buildStatement_ok_inv (GoValue.struct tbl fields) rest excl now
        stmt hbs
    rw [hdups] at hmem
    obtain ⟨g, hg, hgd⟩ := List.mem_map.mp hmem
    have hg' := List.mem_filter.mp (by simpa [GoValue.fields] using hg)
    have hgf : g = f := List.inj_on_of_nodup_map hnd' hg'.1 hf hgd
    have hcf := hg'.2
    rw [hgf] at hcf
    rw [conflictField_excl_false excl f hcf] at hexcl
    exact Bool.noConfusion hexcl

/-- The record used by the C3 witness: an excluded `Email` field next to
a plain `Name` field. -/
def recExcl : GoValue :=
  .struct ("t") [plainField ("Email") ("email") 1, plainField ("Name") ("name") 2]

/-- The attribute map the C3 witness record extracts to with `Email`
excluded. -/
def attrsExcl : List (String × Value) := [("name", Value.raw 2)]

/-- The statement the C3 witness chunk builds. -/
def stmtExcl : Statement :=
  { table := "t", columns := ["name"], placeholders := [1],
    duplicates := ["name"], vars := [Value.raw 2] }

/-- Witness for C3 at a concrete input: excluding `Email` removes its
column from the attribute map, the column list and the conflict
clause. -/
theorem excluded_field_absent_witness :
    (plainField ("Email") ("email") 1 ∈
        [plainField ("Email") ("email") 1, plainField ("Name") ("name") 2] ∧
      containString ["Email"] (plainField ("Email") ("email") 1).structName =
        true ∧
      extractMapValue (GoValue.struct ("t")
        [plainField ("Email") ("email") 1, plainField ("Name") ("name") 2])
        ["Email"] 0 = .ok attrsExcl ∧
      buildStatement (GoValue.struct ("t")
        [plainField ("Email") ("email") 1, plainField ("Name") ("name") 2] :: [])
        ["Email"] 0 = .ok (some stmtExcl)) ∧
    ((plainField ("Email") ("email") 1).dbName ∉ attrsExcl.map Prod.fst ∧
      toColumnName (plainField ("Email") ("email") 1).dbName ∉
        stmtExcl.columns ∧
      (plainField ("Email") ("email") 1).dbName ∉ stmtExcl.duplicates) :=
  ⟨⟨by decide, by decide, by rfl, by rfl⟩,
    excluded_field_absent ("t")
      [plainField ("Email") ("email") 1, plainField ("Name") ("name") 2]
      (plainField ("Email") ("email") 1) [] ["Email"] 0 attrsExcl stmtExcl
      (by decide) (by decide) (by decide) (by rfl) (by rfl)⟩

/-- C4: a field recognized by logical name as `CreatedAt` or `UpdatedAt`
is bound to the freshly generated current-time value, which also appears
in the record's bound-value tuple, and never to the caller-supplied field
value. -/
theorem timestamp_overridden (tbl : String) (fields : List Field)
    (f : Field) (excl : List String) (now : Nat)
    (attrs : List (String × Value))
    (hf : f ∈ fields) (hinc : includedField excl f = true)
    (hts : f.structName = "CreatedAt" ∨ f.structName = "UpdatedAt")
    (hnd : (fields.map Field.dbName).Nodup)
    (hex : extractMapValue (GoValue.struct tbl fields) excl now =
      .ok attrs) :
    lookupD attrs f.dbName = Value.time now ∧
    Value.time now ∈ (sortedKeys attrs).map (lookupD attrs) ∧
    (f.value ≠ Value.time now → lookupD attrs f.dbName ≠ f.value) := by
  have hattrs : attrs = extractFields excl now fields [] :=
    (Except.ok.inj hex).symm
  have hfv : fieldValue f now = Value.time now := by
    unfold fieldValue
    rcases hts with h | h <;> simp [h]
  have huniq : ∀ g ∈ fields, includedField excl g = true →
      g.dbName = f.dbName → fieldValue g now = fieldValue f now := by
    intro g hg _ hgd
    rw [List.inj_on_of_nodup_map hnd hg hf hgd]
  have hl : lookupD attrs f.dbName = Value.time now := by
    rw [hattrs, lookupD_extractFields_mem excl now f fields [] hf hinc
      huniq, hfv]
  refine ⟨hl, ?_, ?_⟩
  · have hmem : f.dbName ∈ attrs.map Prod.fst := by
      rw [hattrs, mem_keys_extractFields]
      exact Or.inr ⟨f, hf, hinc, rfl⟩
    exact List.mem_map.mpr ⟨f.dbName, (mem_sortedKeys attrs _).mpr hmem,
      hl⟩
  · intro hne hcon
    rw [hl] at hcon
    exact hne hcon.symm

/-- The C4 witness record: a `CreatedAt` field whose caller-supplied
value is not a time, next to a plain field. -/
def recStamp : GoValue :=
  .struct ("t") [plainField ("CreatedAt") ("created_at") 7,
    plainField ("Name") ("name") 2]

/-- The attribute map the C4 witness record extracts to at time 9. -/
def attrsStamp : List (String × Value) :=
  [("created_at", Value.time 9), ("name", Value.raw 2)]

/-- Witness for C4 at a concrete input: the caller set `CreatedAt` to
`raw 7`, yet the bound value is `time 9`. -/
theorem timestamp_overridden_witness :
    (plainField ("CreatedAt") ("created_at") 7 ∈
        [plainField ("CreatedAt") ("created_at") 7,
          plainField ("Name") ("name") 2] ∧
      includedField [] (plainField ("CreatedAt") ("created_at") 7) = true ∧
      extractMapValue recStamp [] 9 = .ok attrsStamp) ∧
    (lookupD attrsStamp ("created_at") = Value.time 9 ∧
      Value.time 9 ∈ (sortedKeys attrsStamp).map (lookupD attrsStamp) ∧
      ((plainField ("CreatedAt") ("created_at") 7).value ≠ Value.time 9 →
        lookupD attrsStamp ("created_at") ≠
          (plainField ("CreatedAt") ("created_at") 7).value)) :=
  ⟨⟨by decide, by decide, by rfl⟩,
    timestamp_overridden ("t")
      [plainField ("CreatedAt") ("created_at") 7, plainField ("Name") ("name") 2]
      (plainField ("CreatedAt") ("created_at") 7) [] 9 attrsStamp
      (by decide) (by decide) (Or.inl (by decide)) (by decide) (by rfl)⟩

/-- C5: for an extracted non-timestamp field, a blank field with a
declared default is bound to the default literal when the tag carries
one and to the field's present (zero) value otherwise, while a non-blank
field is bound to the caller's current value as-is. -/
theorem default_value_rule (tbl : String) (fields : List Field)
    (f : Field) (excl : List String) (now : Nat)
    (attrs : List (String × Value))
    (hf : f ∈ fields) (hinc : includedField excl f = true)
    (hts : (f.structName == "CreatedAt" ||
      f.structName == "UpdatedAt") = false)
    (hnd : (fields.map Field.dbName).Nodup)
    (hex : extractMapValue (GoValue.struct tbl fields) excl now =
      .ok attrs) :
    (f.hasDefaultValue = true → f.isBlank = true →
      lookupD attrs f.dbName =
        (match f.defaultTag with
          | some d => Value.str d
          | none => f.value)) ∧
    (f.isBlank = false → lookupD attrs f.dbName = f.value) := by
  have hattrs : attrs = extractFields excl now fields [] :=
    (Except.ok.inj hex).symm
  have huniq : ∀ g ∈ fields, includedField excl g = true →
      g.dbName = f.dbName → fieldValue g now = fieldValue f now := by
    intro g hg _ hgd
    rw [List.inj_on_of_nodup_map hnd hg hf hgd]
  have hl : lookupD attrs f.dbName = fieldValue f now := by
    rw [hattrs]
    exact lookupD_extractFields_mem excl now f fields [] hf hinc huniq
  constructor
  · intro hdv hbl
    rw [hl]
    unfold fieldValue
    rw [if_neg (by simp [hts]), if_pos (by simp [hdv, hbl])]
  · intro hbl
    rw [hl]
    unfold fieldValue
    rw [if_neg (by simp [hts]), if_neg (by simp [hbl])]

/-- The C5 witness record: a blank field with default tag `10`, a blank
field with a default but no tag payload, and a non-blank field with a
default tag. -/
def fieldDefTag : Field :=
  { plainField ("Count") ("count") 0 with
    hasDefaultValue := true
    isBlank := true
    defaultTag := some ("10") }

/-- See `fieldDefTag`. -/
def fieldDefNoTag : Field :=
  { plainField ("Size") ("size") 0 with
    hasDefaultValue := true
    isBlank := true }

/-- See `fieldDefTag`. -/
def fieldNonBlank : Field :=
  { plainField ("Qty") ("qty") 4 with
    hasDefaultValue := true
    defaultTag := some ("99") }

/-- The attribute map the C5 witness record extracts to. -/
def attrsDef : List (String × Value) :=
  [("count", Value.str ("10")), ("size", Value.raw 0),
    ("qty", Value.raw 4)]

/-- Witness for C5 at a concrete input, covering the tagged-default,
untagged-default and non-blank cases through three applications of the
rule to the three fields of one record. -/
theorem default_value_rule_witness :
    (extractMapValue
        (GoValue.struct ("t") [fieldDefTag, fieldDefNoTag, fieldNonBlank])
        [] 0 = .ok attrsDef) ∧
    lookupD attrsDef ("count") = Value.str ("10") ∧
    lookupD attrsDef ("size") = Value.raw 0 ∧
    lookupD attrsDef ("qty") = Value.raw 4 := by
  have h1 := default_value_rule ("t")
    [fieldDefTag, fieldDefNoTag, fieldNonBlank] fieldDefTag [] 0 attrsDef
    (by decide) (by decide) (by decide) (by decide) (by rfl)
  have h2 := default_value_rule ("t")
    [fieldDefTag, fieldDefNoTag, fieldNonBlank] fieldDefNoTag [] 0
    attrsDef (by decide) (by decide) (by decide) (by decide) (by rfl)
  have h3 := default_value_rule ("t")
    [fieldDefTag, fieldDefNoTag, fieldNonBlank] fieldNonBlank [] 0
    attrsDef (by decide) (by decide) (by decide) (by decide) (by rfl)
  exact ⟨by rfl, h1.1 (by decide) (by decide), h2.1 (by decide)
    (by decide), h3.2 (by decide)⟩

/-- C9: the engine stops at the first chunk whose building or execution
fails and returns that error unchanged, whatever the remaining chunks
contain; when every chunk succeeds it returns one issued statement per
non-empty chunk; an empty input yields no statements and success. -/
theorem error_propagation_policy (exec : Statement → Option String)
    (excl : List String) (now : Nat) :
    (∀ chunkSize, BulkUpsert exec [] chunkSize excl now = .ok []) ∧
    (∀ (objects : List GoValue) (chunkSize : Nat)
      (pre : List (List GoValue)) (bad : List GoValue)
      (rest : List (List GoValue)) (e : String),
      splitObjects objects chunkSize = pre ++ bad :: rest →
      (∀ c ∈ pre, ∃ r, upsertObjSet exec c excl now = .ok r) →
      upsertObjSet exec bad excl now = .error e →
      BulkUpsert exec objects chunkSize excl now = .error e) ∧
    (∀ (objects : List GoValue) (chunkSize : Nat),
      (∀ c ∈ splitObjects objects chunkSize,
        ∃ r, upsertObjSet exec c excl now = .ok r) →
      ∃ stmts, BulkUpsert exec objects chunkSize excl now = .ok stmts ∧
        stmts.length = ((splitObjects objects chunkSize).filter
          fun c => !c.isEmpty).length) := by
  refine ⟨?_, ?_, ?_⟩
  · intro chunkSize
    unfold BulkUpsert
    rw [splitObjects_nil]
    exact runChunks_nil exec excl now
  · intro objects chunkSize pre bad rest e hsplit hok hbad
    unfold BulkUpsert
    rw [hsplit]
    exact runChunks_append_error exec excl now pre bad rest e hok hbad
  · intro objects chunkSize hok
    exact runChunks_ok exec excl now (splitObjects objects chunkSize) hok

/-- A record aimed at a healthy table; `execSel` accepts its
statements. -/
def recGood : GoValue := .struct ("t") [plainField ("A") ("a") 1]

/-- A record aimed at table `bad`; `execSel` rejects its statements. -/
def recBad : GoValue := .struct ("bad") [plainField ("A") ("a") 1]

/-- Witness for C9 at concrete inputs: a three-record batch at chunk size
one whose middle chunk fails in execution aborts with that error; the
empty batch succeeds with no statements; an all-good batch issues one
statement per chunk. -/
theorem error_propagation_policy_witness :
    BulkUpsert execSel [recGood, recBad, recGood] 1 [] 0 =
      .error ("boom") ∧
    BulkUpsert execSel ([] : List GoValue) 1 [] 0 = .ok [] ∧
    ∃ stmts, BulkUpsert execSel [recGood, recGood] 1 [] 0 = .ok stmts ∧
      stmts.length = ((splitObjects [recGood, recGood] 1).filter
        fun c => !c.isEmpty).length := by
  refine ⟨?_, (error_propagation_policy execSel [] 0).1 1, ?_⟩
  · apply (error_propagation_policy execSel [] 0).2.1
      [recGood, recBad, recGood] 1 [[recGood]] [recBad] [[recGood]]
      ("boom")
    · rfl
    · intro c hc
      rw [List.mem_singleton.mp hc]
      exact ⟨_, rfl⟩
    · rfl
  · apply (error_propagation_policy execSel [] 0).2.2 [recGood, recGood] 1
    intro c hc
    have : c = [recGood] := by
      rcases List.mem_cons.mp hc with h | h
      · exact h
      · exact List.mem_singleton.mp h
    rw [this]
    exact ⟨_, rfl⟩

/-- C10: the consistency check compares only attribute-map cardinality;
records of equal attribute count but different key sets are accepted, the
statement is issued, and each record's values are bound (in its own
sorted key order) under the column list derived from the first record. -/
theorem size_only_consistency (first : GoValue) (rest : List GoValue)
    (excl : List String) (now : Nat)
    (m : GoValue → List (String × Value))
    (hm : ∀ r ∈ first :: rest, extractMapValue r excl now = .ok (m r))
    (hsize : ∀ r ∈ first :: rest, (m r).length = (m first).length)
    (hdiff : ∃ r ∈ first :: rest,
      sortedKeys (m r) ≠ sortedKeys (m first)) :
    ∃ stmt, buildStatement (first :: rest) excl now = .ok (some stmt) ∧
      upsertObjSet execNone (first :: rest) excl now = .ok (some stmt) ∧
      stmt.columns = (sortedKeys (m first)).map toColumnName ∧
      stmt.vars = ((first :: rest).map fun r =>
        (sortedKeys (m r)).map (lookupD (m r))).flatten := by
  have hfa : extractMapValue first excl now = .ok (m first) :=
    hm first (List.mem_cons_self first rest)
  have hrows := buildRows_ok excl now m (m first).length (first :: rest)
    hm hsize
  have hb := buildStatement_cons first rest excl now (m first) _ _ hfa
    hrows
  refine ⟨_, hb, upsertObjSet_exec_ok execNone _ excl now _ hb rfl,
    rfl, rfl⟩

/-- A record whose single attribute is column `a`. -/
def recKeyA : GoValue := .struct ("t") [plainField ("A") ("a") 1]

/-- A record whose single attribute is column `b` — same attribute count
as `recKeyA`, different key set. -/
def recKeyB : GoValue := .struct ("t") [plainField ("B") ("b") 2]

/-- Witness for C10 at a concrete input: two one-attribute records with
different key sets are accepted and the statement binds the second
record's value under the first record's column. -/
theorem size_only_consistency_witness :
    (∀ r ∈ recKeyA :: [recKeyB],
      extractMapValue r [] 5 = .ok (attrsOf r)) ∧
    (∀ r ∈ recKeyA :: [recKeyB],
      (attrsOf r).length = (attrsOf recKeyA).length) ∧
    (∃ r ∈ recKeyA :: [recKeyB],
      sortedKeys (attrsOf r) ≠ sortedKeys (attrsOf recKeyA)) ∧
    ∃ stmt, buildStatement (recKeyA :: [recKeyB]) [] 5 =
        .ok (some stmt) ∧
      upsertObjSet execNone (recKeyA :: [recKeyB]) [] 5 =
        .ok (some stmt) ∧
      stmt.columns = (sortedKeys (attrsOf recKeyA)).map toColumnName ∧
      stmt.vars = ((recKeyA :: [recKeyB]).map fun r =>
        (sortedKeys (attrsOf r)).map (lookupD (attrsOf r))).flatten := by
  have h1 : ∀ r ∈ recKeyA :: [recKeyB],
      extractMapValue r [] 5 = .ok (attrsOf r) := by
    intro r hr
    rcases List.mem_cons.mp hr with h | h
    · subst h; rfl
    · rw [List.mem_singleton.mp h]; rfl
  have h2 : ∀ r ∈ recKeyA :: [recKeyB],
      (attrsOf r).length = (attrsOf recKeyA).length := by
    intro r hr
    rcases List.mem_cons.mp hr with h | h
    · subst h; rfl
    · rw [List.mem_singleton.mp h]; rfl
  have h3 : ∃ r ∈ recKeyA :: [recKeyB],
      sortedKeys (attrsOf r) ≠ sortedKeys (attrsOf recKeyA) :=
    ⟨recKeyB, by simp, by decide⟩
  exact ⟨h1, h2, h3,
    size_only_consistency recKeyA [recKeyB] [] 5 attrsOf h1 h2 h3⟩

/-- A primary-key field as gorm tags it. -/
def fieldID : Field :=
  { plainField ("ID") ("id") 1 with isPrimaryKey := true }

/-- The C2 record: a primary key next to a plain field. -/
def recPk : GoValue := .struct ("t") [fieldID, plainField ("Name") ("name") 2]

/-- The statement the C2 record's chunk builds: the primary-key column
`id` is in the column list, only `name` is in the conflict clause. -/
def stmtPk : Statement :=
  { table := "t", columns := ["id", "name"], placeholders := [2],
    duplicates := ["name"], vars := [Value.raw 1, Value.raw 2] }

/-- C2 counterexample: `extractMapValue` does not filter primary-key or
unique fields, so the primary-key column `id` appears in the INSERT
column list of an emitted statement, contradicting the claim that such a
field never appears there. -/
theorem primary_key_in_columns :
    fieldID.isPrimaryKey = true ∧
    upsertObjSet execNone [recPk] [] 0 = .ok (some stmtPk) ∧
    toColumnName fieldID.dbName ∈ stmtPk.columns := by
  refine ⟨by decide, by rfl, by decide⟩

/-- C2 as amended: a primary-key / unique / unique-indexed field is
excluded from the `ON DUPLICATE KEY UPDATE` clause (it is a
conflict-detection key, not a conflict-update candidate), although it
does still appear in the INSERT column list.  Distinct emitted column
names are assumed as in C3. -/
theorem key_fields_not_in_conflict_clause (tbl : String)
    (fields : List Field) (f : Field) (rest : List GoValue)
    (excl : List String) (now : Nat) (stmt : Statement)
    (hf : f ∈ fields)
    (hkey : f.isPrimaryKey = true ∨ f.isUnique = true ∨
      f.hasUniqueIndex = true)
    (hnd : (fields.map Field.dbName).Nodup)
    (hbs : buildStatement (GoValue.struct tbl fields :: rest) excl now =
      .ok (some stmt)) :
    f.dbName ∉ stmt.duplicates := by
  intro hmem
  obtain ⟨fa, _, _, _, hdups⟩ :=
    buildStatement_ok_inv (GoValue.struct tbl fields) rest excl now stmt
      hbs
  rw [hdups] at hmem
  obtain ⟨g, hg, hgd⟩ := List.mem_map.mp hmem
  have hg' := List.mem_filter.mp (by simpa [GoValue.fields] using hg)
  have hgf : g = f := List.inj_on_of_nodup_map hnd hg'.1 hf hgd
  have hcf := hg'.2
  rw [hgf, conflictField_key_false excl f hkey] at hcf
  exact Bool.noConfusion hcf

/-- Witness for the amended C2 at a concrete input: the primary-key
column is absent from the conflict clause of the emitted statement. -/
theorem key_fields_not_in_conflict_clause_witness :
    (fieldID ∈ [fieldID, plainField ("Name") ("name") 2] ∧
      fieldID.isPrimaryKey = true ∧
      buildStatement (GoValue.struct ("t")
        [fieldID, plainField ("Name") ("name") 2] :: []) [] 0 =
        .ok (some stmtPk)) ∧
    fieldID.dbName ∉ stmtPk.duplicates :=
  ⟨⟨by decide, by decide, by rfl⟩,
    key_fields_not_in_conflict_clause ("t")
      [fieldID, plainField ("Name") ("name") 2] fieldID [] [] 0 stmtPk
      (by decide) (Or.inl (by decide)) (by decide) (by rfl)⟩

/-- The spec's writable-column candidacy filter (§4.2), written from the
spec's words for comparison with the code: a field survives unless it is
excluded, in a relationship, foreign-keyed, ignored, the primary key, or
unique / unique-indexed. -/
def specWritableCandidate (excl : List String) (f : Field) : Bool :=
  !(containString excl f.structName) && !f.hasRelationship &&
    !f.hasForeignKey && !f.isIgnored && !f.isPrimaryKey &&
    !f.isUnique && !f.hasUniqueIndex

/-- Insert a field into a list ascending by logical field name. -/
def insertFieldByName (f : Field) : List Field → List Field
  | [] => [f]
  | g :: gs =>
    if strLt g.structName f.structName then g :: insertFieldByName f gs
    else f :: g :: gs

/-- Insertion sort of fields by logical field name. -/
def sortFieldsByLogicalName : List Field → List Field
  | [] => []
  | f :: fs => insertFieldByName f (sortFieldsByLogicalName fs)

/-- Written from the spec's words (§4.2), for comparison with the code's
column list: the surviving writable-column candidates ordered
lexicographically by **logical field name**, rendered as database column
names. -/
def specOrderedColumns (excl : List String) (fields : List Field) :
    List String :=
  (sortFieldsByLogicalName (fields.filter
    (specWritableCandidate excl))).map Field.dbName

/-- A field whose logical name sorts after `IDCard` but whose column name
sorts before `id_card`. -/
def fieldIa : Field := plainField ("Ia") ("ia") 1

/-- See `fieldIa`. -/
def fieldIDCard : Field := plainField ("IDCard") ("id_card") 2

/-- The C1 record: two plain fields whose logical-name order and
column-name order disagree. -/
def recIa : GoValue := .struct ("t") [fieldIa, fieldIDCard]

/-- The statement the C1 record's chunk builds: columns in column-name
order `ia`, `id_card`. -/
def stmtIa : Statement :=
  { table := "t", columns := ["ia", "id_card"], placeholders := [2],
    duplicates := ["ia", "id_card"], vars := [Value.raw 1, Value.raw 2] }

/-- C1 counterexample: the emitted column list is ordered by database
column name (the attribute-map key), not by logical field name — logical
order yields `IDCard` before `Ia` (hence columns `id_card`, `ia`), while
the code emits `ia`, `id_card`. -/
theorem columns_not_logical_order :
    upsertObjSet execNone [recIa] [] 0 = .ok (some stmtIa) ∧
    stmtIa.columns = ["ia", "id_card"] ∧
    specOrderedColumns [] [fieldIa, fieldIDCard] = ["id_card", "ia"] ∧
    stmtIa.columns ≠ specOrderedColumns [] [fieldIa, fieldIDCard] := by
  refine ⟨by rfl, by rfl, by decide, by decide⟩

/-- C1 as amended: the ordered column list is the attribute map's keys —
the **database column names** — sorted lexicographically; for records
whose attribute maps share one sorted key list the column list is
identical across every chunk of the batch, and each record's bound-value
order follows that same sorted key order, matching the columns. -/
theorem columns_sorted_by_db_name (objects : List GoValue)
    (chunkSize : Nat) (excl : List String) (now : Nat)
    (m : GoValue → List (String × Value)) (ko : List String)
    (hm : ∀ r ∈ objects, extractMapValue r excl now = .ok (m r))
    (hk : ∀ r ∈ objects, sortedKeys (m r) = ko) :
    ∀ c ∈ splitObjects objects chunkSize, ∀ stmt,
      buildStatement c excl now = .ok (some stmt) →
      stmt.columns = ko.map toColumnName ∧
      stmt.vars = (c.map fun r => ko.map (lookupD (m r))).flatten := by
  intro c hc stmt hbs
  have hsub : ∀ r ∈ c, r ∈ objects := fun r hr =>
    mem_of_mem_splitObjects chunkSize objects c r hc hr
  obtain ⟨f, cs, rfl⟩ := List.exists_cons_of_ne_nil
    (ne_nil_of_mem_splitObjects chunkSize objects _ hc)
  have hmf := hm f (hsub f (List.mem_cons_self f cs))
  have hlen : ∀ r ∈ f :: cs, (m r).length = (m f).length := by
    intro r hr
    have h1 : (sortedKeys (m r)).length = (sortedKeys (m f)).length := by
      rw [hk r (hsub r hr), hk f (hsub f (List.mem_cons_self f cs))]
    simpa [length_sortedKeys] using h1
  have hrows := buildRows_ok excl now m (m f).length (f :: cs)
    (fun r hr => hm r (hsub r hr)) hlen
  have hb := buildStatement_cons f cs excl now (m f) _ _ hmf hrows
  rw [hb] at hbs
  have hstmt := Option.some.inj (Except.ok.inj hbs)
  constructor
  · rw [← hstmt]
    show (sortedKeys (m f)).map toColumnName = ko.map toColumnName
    rw [hk f (hsub f (List.mem_cons_self f cs))]
  · rw [← hstmt]
    show ((f :: cs).map fun r =>
      (sortedKeys (m r)).map (lookupD (m r))).flatten = _
    congr 1
    apply List.map_congr_left
    intro r hr
    rw [hk r (hsub r hr)]

/-- The statement each singleton chunk of the C1-witness batch builds at
time 5. -/
def stmtIaW : Statement :=
  { table := "t", columns := ["ia", "id_card"], placeholders := [2],
    duplicates := ["ia", "id_card"], vars := [Value.raw 1, Value.raw 2] }

/-- Witness for the amended C1 at a concrete input: a two-record batch at
chunk size one; the first chunk's statement carries the sorted column
names with matching value order. -/
theorem columns_sorted_by_db_name_witness :
    stmtIaW.columns = (["ia", "id_card"]).map toColumnName ∧
    stmtIaW.vars = ([recIa].map fun r =>
      (["ia", "id_card"]).map (lookupD (attrsOf r))).flatten := by
  have h1 : ∀ r ∈ [recIa, recIa],
      extractMapValue r [] 5 = .ok (attrsOf r) := by
    intro r hr
    rcases List.mem_cons.mp hr with h | h
    · subst h; rfl
    · rw [List.mem_singleton.mp h]; rfl
  have h2 : ∀ r ∈ [recIa, recIa],
      sortedKeys (attrsOf r) = ["ia", "id_card"] := by
    intro r hr
    rcases List.mem_cons.mp hr with h | h
    · subst h; rfl
    · rw [List.mem_singleton.mp h]; rfl
  exact columns_sorted_by_db_name [recIa, recIa] 1 [] 5 attrsOf
    ["ia", "id_card"] h1 h2 [recIa] (by decide) stmtIaW (by rfl)

end GormBulk
